import Mathlib

/-!
Verification of the adapter composition engine of `adapter_bert.py`
(`BertAdaptersBaseMixin` and `BertModelAdaptersMixin`).

Tensors are embedded as nested lists: the outer list is the batch axis, the
middle list the sequence axis, and an abstract element type `α` stands for the
per-position feature slice.  The block layer norm, the adapter modules and the
fusion modules of the source act position-wise on the last axis, so they are
embedded as abstract functions on `α` carried by an `AdapterBlock` record, which
plays the role of one `BertAdaptersBaseMixin` instance together with the parts
of `self.config` it reads.  Python exceptions (the two `ValueError`s of the
interpreter, the `UnboundLocalError` for the local `up`, `KeyError`/`IndexError`
on lookups) are embedded with `Except AErr`.
-/

/-- Composition node: a bare adapter name (a `str` in the source) or one of the
`AdapterCompositionBlock` subclasses `Stack`, `Fuse`, `Split` of the (absent)
`adapter_composition` module. -/
inductive AdapterComposition where
  | leaf (name : String)
  | stack (children : List AdapterComposition)
  | fuse (children : List AdapterComposition)
  | split (children : List AdapterComposition) (split_index : Nat)
deriving Repr

/-- A tensor of shape batch × sequence × (feature slice `α`). -/
abbrev Tensor (α : Type) := List (List α)

/-- The exceptions the interpreter can raise.  `tooDeep` is the
`CompositionDepthError` `ValueError` of `adapter_stack`, `invalidNesting` the
`InvalidNestingError` `ValueError` of `adapter_fusion`/`adapter_split`,
`invalidSetup` the `UnknownCompositionKindError` of `adapters_forward`,
`unboundLocalUp` the `UnboundLocalError` on reading the never-assigned local
`up`, `missingFusionLayer` a `KeyError` on `self.adapter_fusion_layer[...]`,
and `indexError` an `IndexError` on `split_hidden_states[i]`. -/
inductive AErr where
  | tooDeep (blockClass : String) (lvl : Nat)
  | invalidNesting (child parent : String)
  | invalidSetup
  | unboundLocalUp
  | missingFusionLayer (key : String)
  | indexError
deriving DecidableEq, Repr

/-- The fields of one adapter's configuration mapping that the composition
engine reads. -/
structure AdapterConfig where
  residual_before_ln : Bool
  original_ln_before : Bool
  original_ln_after : Bool
deriving DecidableEq, Repr

/-- The fusion configuration `self.config.adapter_fusion`; the surrounding
`Option` models `hasattr(self.config, "adapter_fusion")`. -/
structure AdapterFusionConfig where
  query_before_ln : Bool
deriving DecidableEq, Repr

/-- One transformer block with adapter integration (`BertAdaptersBaseMixin`):
its adapter registry, its fusion-layer registry, the configuration lookups it
performs, the active composition, and its layer norm and tensor addition
acting per position. -/
structure AdapterBlock (α : Type) where
  adapter_modules : String → Option (α → α → α × α)
  adapter_fusion_layer :
    String → Option (Option (Tensor α) → List (List (List α)) → Tensor α → Tensor α)
  adapters_get : String → AdapterConfig
  adapter_fusion_cfg : Option AdapterFusionConfig
  active_setup : Option AdapterComposition
  layer_norm : α → α
  tadd : α → α → α

namespace AdapterComposition

/-- `isinstance(x, AdapterCompositionBlock)`: true for `Stack`, `Fuse` and
`Split`, false for a bare adapter name. -/
def isCompositionBlock : AdapterComposition → Bool
  | .leaf _ => false
  | _ => true

/-- `x.__class__.__name__`, as used in the interpreter's error messages. -/
def className : AdapterComposition → String
  | .leaf _ => "str"
  | .stack _ => "Stack"
  | .fuse _ => "Fuse"
  | .split _ _ => "Split"

def isLeaf : AdapterComposition → Bool
  | .leaf _ => true
  | _ => false

mutual
/-- Modelled from the spec: `flatten` of the missing `adapter_composition`
module returns the adapter names referenced by a composition. -/
def flatten : AdapterComposition → List String
  | .leaf nm => [nm]
  | .stack cs => flattenList cs
  | .fuse cs => flattenList cs
  | .split cs _ => flattenList cs

def flattenList : List AdapterComposition → List String
  | [] => []
  | c :: cs => flatten c ++ flattenList cs
end

mutual
/-- Modelled from the spec: `last()` of the missing `adapter_composition`
module; the name of the last (rightmost) adapter referenced by the
composition, used for configuration lookups. -/
def lastName : AdapterComposition → String
  | .leaf nm => nm
  | .stack cs => lastNameList cs
  | .fuse cs => lastNameList cs
  | .split cs _ => lastNameList cs

def lastNameList : List AdapterComposition → String
  | [] => ""
  | [c] => lastName c
  | _ :: c :: cs => lastNameList (c :: cs)
end

mutual
/-- Modelled from the spec: `first()` of the missing `adapter_composition`
module; the name of the first (leftmost) adapter referenced by the
composition. -/
def firstName : AdapterComposition → String
  | .leaf nm => nm
  | .stack cs => firstNameList cs
  | .fuse cs => firstNameList cs
  | .split cs _ => firstNameList cs

def firstNameList : List AdapterComposition → String
  | [] => ""
  | c :: _ => firstName c
end

end AdapterComposition

section Interp

variable {α : Type} [Inhabited α]

open AdapterComposition

/-- Tensor addition followed by the block layer norm, position-wise:
`self.layer_norm(hidden_states + input_tensor)`. -/
def lnAdd (bk : AdapterBlock α) (x y : Tensor α) : Tensor α :=
  List.zipWith (fun rx ry => List.zipWith (fun a c => bk.layer_norm (bk.tadd a c)) rx ry) x y

/-- One adapter module forward pass `adapter_layer(h, residual_input=res)`,
applied independently at each position; the pair holds the output hidden
states and the up-projection (the middle return value is never used by the
interpreter and is omitted). -/
def runAdapter (f : α → α → α × α) (h res : Tensor α) : Tensor α × Tensor α :=
  (List.zipWith (fun hr rr => List.zipWith (fun x r => (f x r).1) hr rr) h res,
   List.zipWith (fun hr rr => List.zipWith (fun x r => (f x r).2) hr rr) h res)

/-- `BertAdaptersBaseMixin.get_adapter_preparams`: resolves the hidden states
fed to the adapters, the fusion query, and the residual, according to one
adapter's configuration.  The source assigns `residual`/`query` before the
layer norm when the respective flag is set and after it otherwise; `query`
stays `None` when `self.config` has no `adapter_fusion` attribute. -/
def get_adapter_preparams (bk : AdapterBlock α) (adapter_config : AdapterConfig)
    (hidden_states input_tensor : Tensor α) :
    Tensor α × Option (Tensor α) × Tensor α :=
  let pre := hidden_states
  let hidden :=
    if adapter_config.original_ln_before then lnAdd bk hidden_states input_tensor
    else hidden_states
  let residual := if adapter_config.residual_before_ln then pre else hidden
  let query := bk.adapter_fusion_cfg.map (fun fc => if fc.query_before_ln then pre else hidden)
  (hidden, query, residual)

/-- Preparameter resolution done once per `Fuse` node, before its children
run: the config of the last fused adapter is significant. -/
def fusionPre (bk : AdapterBlock α) (cs : List AdapterComposition) (h inp : Tensor α) :
    Tensor α × Option (Tensor α) × Tensor α :=
  get_adapter_preparams bk (bk.adapters_get (lastNameList cs)) h inp

/-- Modelled from the spec: `Fuse.name` of the missing `adapter_composition`
module, the comma-joined child adapter names, used as fusion-registry key. -/
def fuseKey (cs : List AdapterComposition) : String :=
  String.intercalate "," (flattenList cs)

/-- `torch.stack(up_list).permute(1, 2, 0, 3)`: entry `[b][s][i]` of the
result is entry `[b][s]` of `ups[i]`, so the adapter axis (size
`ups.length`) sits between the batch/sequence axes and the feature axis. -/
def stackPermute (ups : List (Tensor α)) : List (List (List α)) :=
  match ups with
  | [] => []
  | u0 :: _ =>
    (List.range u0.length).map fun b =>
      (List.range ((u0.getD b []).length)).map fun s =>
        ups.map fun u => (u.getD b []).getD s default

/-- The tail of `adapter_fusion` after its loop collected `up_list = ups`:
when the list is nonempty, stack it, permute it, and apply the block's fusion
module for this group key to `(query, up_list, up_list, residual)`. -/
def fusionPost (bk : AdapterBlock α) (cs : List AdapterComposition)
    (query : Option (Tensor α)) (residual h1 : Tensor α) (ups : List (Tensor α)) :
    Except AErr (Tensor α) :=
  if ups.length > 0 then
    match bk.adapter_fusion_layer (fuseKey cs) with
    | some fl => .ok (fl query (stackPermute ups) residual)
    | none => .error (.missingFusionLayer (fuseKey cs))
  else .ok h1

/-- Preparameter resolution done once per `Split` node, on the full-width
tensors: the config of the first of the splitted adapters is significant. -/
def splitPre (bk : AdapterBlock α) (cs : List AdapterComposition) (h inp : Tensor α) :
    Tensor α × Option (Tensor α) × Tensor α :=
  get_adapter_preparams bk (bk.adapters_get (firstNameList cs)) h inp

/-- Slices hidden states, input tensor and residual at the split index along
the sequence dimension (`x[:, :k, :]` and `x[:, k:, :]`). -/
def mkSegs (k : Nat) (h1 inp residual : Tensor α) :
    List (Tensor α × Tensor α × Tensor α) :=
  [(h1.map (List.take k), inp.map (List.take k), residual.map (List.take k)),
   (h1.map (List.drop k), inp.map (List.drop k), residual.map (List.drop k))]

/-- `torch.cat(split_hidden_states, dim=1)`. -/
def concatSegs (segs : List (Tensor α)) : Tensor α :=
  match segs with
  | [] => []
  | s :: rest => rest.foldl (fun acc t => List.zipWith (· ++ ·) acc t) s

mutual

/-- The loop of `adapter_stack`: iterates the children carrying the running
hidden states and the (possibly still unassigned) local `up`. -/
def stackLoop (bk : AdapterBlock α) (lvl : Nat) (cs : List AdapterComposition)
    (h inp : Tensor α) (up : Option (Tensor α)) :
    Except AErr (Tensor α × Option (Tensor α)) :=
  match cs with
  | [] => .ok (h, up)
  | c :: rest =>
    (stackStep bk lvl c h inp up).bind fun r =>
      stackLoop bk lvl rest r.1 inp r.2

/-- One iteration of the `adapter_stack` loop on child `c`: the depth check,
then the `Fuse`/`Split`/present-leaf dispatch; any other child is ignored
(`# Case X`), leaving hidden states and `up` untouched. -/
def stackStep (bk : AdapterBlock α) (lvl : Nat) (c : AdapterComposition)
    (h inp : Tensor α) (up : Option (Tensor α)) :
    Except AErr (Tensor α × Option (Tensor α)) :=
  if c.isCompositionBlock ∧ lvl ≥ 1 then .error (.tooDeep c.className lvl)
  else
    match c with
    | .fuse ds =>
      let pre := fusionPre bk ds h inp
      (fusionLoop bk ds pre.1 inp pre.2.2 0 none []).bind fun ups =>
        (fusionPost bk ds pre.2.1 pre.2.2 pre.1 ups).map fun h2 => (h2, some h2)
    | .split ds k =>
      let pre := splitPre bk ds h inp
      (splitLoop bk ds (mkSegs k pre.1 inp pre.2.2) 0).map fun outSegs =>
        let h2 := concatSegs outSegs
        (h2, some h2)
    | .leaf nm =>
      match bk.adapter_modules nm with
      | some f =>
        let pre := get_adapter_preparams bk (bk.adapters_get nm) h inp
        let r := runAdapter f pre.1 pre.2.2
        .ok (r.1, some r.2)
      | none => .ok (h, up)
    | .stack _ => .ok (h, up)

/-- The loop of `adapter_fusion`: all children consume the same `h1` and
`residual`; every iteration appends the current value of the local `up` to
`up_list` (reading it while still unassigned fails). -/
def fusionLoop (bk : AdapterBlock α) (cs : List AdapterComposition)
    (h1 inp residual : Tensor α) (lvl : Nat) (up : Option (Tensor α))
    (acc : List (Tensor α)) : Except AErr (List (Tensor α)) :=
  match cs with
  | [] => .ok acc
  | c :: rest =>
    (fusionStep bk c h1 inp residual lvl up).bind fun up2 =>
      match up2 with
      | some u => fusionLoop bk rest h1 inp residual lvl (some u) (acc ++ [u])
      | none => .error .unboundLocalUp

/-- One iteration of the `adapter_fusion` loop on child `c`, producing the
value the local `up` holds when `up_list.append(up)` runs: a nested `Stack`
recurses at `lvl + 1` (its hidden-state result is discarded), a present leaf
runs its adapter, an absent leaf leaves `up` untouched, any other
composition block is invalid. -/
def fusionStep (bk : AdapterBlock α) (c : AdapterComposition)
    (h1 inp residual : Tensor α) (lvl : Nat) (up : Option (Tensor α)) :
    Except AErr (Option (Tensor α)) :=
  match c with
  | .stack ds =>
    (stackLoop bk (lvl + 1) ds h1 inp none).bind fun r =>
      match r.2 with
      | some u => .ok (some u)
      | none => .error .unboundLocalUp
  | .leaf nm =>
    match bk.adapter_modules nm with
    | some f => .ok (some ((runAdapter f h1 residual).2))
    | none => .ok up
  | .fuse _ => .error (.invalidNesting c.className "Fuse")
  | .split _ _ => .error (.invalidNesting c.className "Fuse")

/-- The loop of `adapter_split`: consumes one sliced segment per child;
children beyond the sliced segments raise `IndexError`, leftover segments
pass through to the final concatenation. -/
def splitLoop (bk : AdapterBlock α) (cs : List AdapterComposition)
    (segs : List (Tensor α × Tensor α × Tensor α)) (lvl : Nat) :
    Except AErr (List (Tensor α)) :=
  match cs, segs with
  | [], rest => .ok (rest.map (fun sg => sg.1))
  | _ :: _, [] => .error .indexError
  | c :: cs2, sg :: segs2 =>
    (splitStep bk c sg lvl).bind fun t =>
      (splitLoop bk cs2 segs2 lvl).map fun ts => t :: ts

/-- One iteration of the `adapter_split` loop on child `c` with segment
`sg = (hidden, input, residual)`: only a present leaf child updates its
`split_hidden_states[i]` entry; a nested `Stack` recurses at `lvl + 1` but
its result is discarded (`_, up = self.adapter_stack(...)` in the source),
so the segment passes through unchanged. -/
def splitStep (bk : AdapterBlock α) (c : AdapterComposition)
    (sg : Tensor α × Tensor α × Tensor α) (lvl : Nat) :
    Except AErr (Tensor α) :=
  match c with
  | .stack ds =>
    (stackLoop bk (lvl + 1) ds sg.1 sg.2.1 none).bind fun r =>
      match r.2 with
      | some _ => .ok sg.1
      | none => .error .unboundLocalUp
  | .leaf nm =>
    match bk.adapter_modules nm with
    | some f => .ok ((runAdapter f sg.1 sg.2.2).1)
    | none => .ok sg.1
  | .fuse _ => .error (.invalidNesting c.className "Split")
  | .split _ _ => .error (.invalidNesting c.className "Split")

end

/-- `BertAdaptersBaseMixin.adapter_stack`: runs the loop, then returns
`(hidden_states, up)`; if no iteration assigned `up`, the `return` statement
raises `UnboundLocalError`. -/
def adapter_stack (bk : AdapterBlock α) (cs : List AdapterComposition)
    (h inp : Tensor α) (lvl : Nat) : Except AErr (Tensor α × Tensor α) :=
  (stackLoop bk lvl cs h inp none).bind fun r =>
    match r.2 with
    | some u => .ok (r.1, u)
    | none => .error .unboundLocalUp

/-- `BertAdaptersBaseMixin.adapter_fusion`: resolves preparams once from the
last fused adapter's config, collects one `up_list` entry per child, then
applies the fusion module. -/
def adapter_fusion (bk : AdapterBlock α) (cs : List AdapterComposition)
    (h inp : Tensor α) (lvl : Nat) : Except AErr (Tensor α) :=
  let pre := fusionPre bk cs h inp
  (fusionLoop bk cs pre.1 inp pre.2.2 lvl none []).bind fun ups =>
    fusionPost bk cs pre.2.1 pre.2.2 pre.1 ups

/-- `BertAdaptersBaseMixin.adapter_split`: resolves preparams once from the
first splitted adapter's config, slices at the split index, processes each
segment, and concatenates back along the sequence dimension. -/
def adapter_split (bk : AdapterBlock α) (cs : List AdapterComposition) (k : Nat)
    (h inp : Tensor α) (lvl : Nat) : Except AErr (Tensor α) :=
  let pre := splitPre bk cs h inp
  (splitLoop bk cs (mkSegs k pre.1 inp pre.2.2) lvl).map fun outSegs =>
    concatSegs outSegs

/-- The dispatch of `adapters_forward` on the type of the active setup. -/
def dispatchSetup (bk : AdapterBlock α) (setup : AdapterComposition)
    (h inp : Tensor α) : Except AErr (Tensor α) :=
  match setup with
  | .stack cs => (adapter_stack bk cs h inp 0).map fun r => r.1
  | .fuse cs => adapter_fusion bk cs h inp 0
  | .split cs k => adapter_split bk cs k h inp 0
  | .leaf _ => .error .invalidSetup

/-- `BertAdaptersBaseMixin.adapters_forward`: if a composition is active and
its flattened names intersect this block's registry, interpret it and apply
the conditional post layer norm dictated by the last referenced adapter's
config; otherwise fall through to `LayerNorm(hidden_states + input_tensor)`.
-/
def adapters_forward (bk : AdapterBlock α) (h inp : Tensor α) :
    Except AErr (Tensor α) :=
  match bk.active_setup with
  | some adapter_setup =>
    if (flatten adapter_setup).any (fun nm => (bk.adapter_modules nm).isSome) then
      (dispatchSetup bk adapter_setup h inp).bind fun h2 =>
        let last_config := bk.adapters_get (lastName adapter_setup)
        .ok (if last_config.original_ln_after then lnAdd bk h2 inp else h2)
    else .ok (lnAdd bk h inp)
  | none => .ok (lnAdd bk h inp)

/-- The up-projection a present leaf child contributes inside a `Fuse` node
(all children read the same `h1` and `residual`). -/
def leafUp (bk : AdapterBlock α) (h1 residual : Tensor α) (c : AdapterComposition) :
    Tensor α :=
  match c with
  | .leaf nm =>
    match bk.adapter_modules nm with
    | some f => (runAdapter f h1 residual).2
    | none => []
  | _ => []

/-- Whether an interpreter result is the depth error (`CompositionDepthError`).
-/
def isTooDeepErr : Except AErr (Tensor α) → Bool
  | .error (.tooDeep _ _) => true
  | _ => false

end Interp

instance {ε α : Type} [DecidableEq ε] [DecidableEq α] : DecidableEq (Except ε α) := fun a b =>
  match a, b with
  | .ok x, .ok y =>
    if h : x = y then .isTrue (by rw [h]) else .isFalse (fun he => h (by cases he; rfl))
  | .error x, .error y =>
    if h : x = y then .isTrue (by rw [h]) else .isFalse (fun he => h (by cases he; rfl))
  | .ok _, .error _ => .isFalse (fun he => by cases he)
  | .error _, .ok _ => .isFalse (fun he => by cases he)

/-! ### `BertModelAdaptersMixin.get_fusion_regularization_loss`

Weights are embedded as `Nat → Nat → ℚ` matrices read on the square
`hidden_size × hidden_size` index range. -/

/-- `torch.zeros((n, n)).fill_diagonal_(1.0)`, the identity target matrix. -/
def targetMatrix : Nat → Nat → ℚ := fun i j => if i = j then 1 else 0

/-- `(target - w).pow(2).sum()`: the squared Frobenius distance between the
identity target and `w` over the `n × n` index square. -/
def frobSq (n : Nat) (w : Nat → Nat → ℚ) : ℚ :=
  ((List.range n).map (fun i =>
    ((List.range n).map (fun j => (targetMatrix i j - w i j) ^ 2)).foldl (· + ·) 0)).foldl
    (· + ·) 0

/-- One fusion module, holding its value-projection weight when the module has
a `value` attribute (`hasattr(layer_fusion, "value")`). -/
structure BertFusionModule where
  value : Option (Nat → Nat → ℚ)

/-- One encoder layer `v`, with the fusion modules of `v.output` and of
`v.attention.output`. -/
structure EncoderLayer where
  output_fusions : List BertFusionModule
  attention_fusions : List BertFusionModule

/-- `BertModelAdaptersMixin.get_fusion_regularization_loss`: starting from
`0.0`, for every encoder layer add `0.01 * (target - value.weight).pow(2).sum()`
for each fusion module of `v.output` and then of `v.attention.output` that has
a `value` attribute. -/
def get_fusion_regularization_loss (n : Nat) (layers : List EncoderLayer) : ℚ :=
  layers.foldl (fun acc v =>
    let acc2 := v.output_fusions.foldl (fun a fm =>
      match fm.value with
      | some w => a + (0.01 : ℚ) * frobSq n w
      | none => a) acc
    v.attention_fusions.foldl (fun a fm =>
      match fm.value with
      | some w => a + (0.01 : ℚ) * frobSq n w
      | none => a) acc2) 0

/-- All value-projection weights of the model's fusion modules, in the
iteration order of `get_fusion_regularization_loss`. -/
def valueWeights (layers : List EncoderLayer) : List (Nat → Nat → ℚ) :=
  layers.flatMap fun v =>
    (v.output_fusions ++ v.attention_fusions).filterMap fun fm => fm.value

/-! ### Concrete instances used for witnesses and counterexamples -/

/-- A concrete block over `Int` feature slices hosting adapters `"a"` and
`"b"`, with fusion modules for the group keys `"a,x"` and `"a,b"`; the fusion
module sums the stacked up-projections per position on top of the residual.
Adapter `"z"` has `original_ln_after` set, every other name does not. -/
def exBlock : AdapterBlock Int :=
  { adapter_modules := fun nm =>
      if nm = "a" then some (fun x _ => (x + 10, x + 20))
      else if nm = "b" then some (fun x r => (x + 30, r + 40))
      else none
    adapter_fusion_layer := fun key =>
      if key = "a,x" ∨ key = "a,b" then
        some (fun _q st res =>
          List.zipWith (fun cellRow resRow =>
            List.zipWith (fun cell r => cell.foldl (· + ·) r) cellRow resRow) st res)
      else none
    adapters_get := fun nm => if nm = "z" then ⟨false, true, true⟩ else ⟨false, true, false⟩
    adapter_fusion_cfg := some ⟨true⟩
    active_setup := none
    layer_norm := fun x => x + 1
    tadd := fun a c => a + c }

/-! ### Claim theorems -/

open AdapterComposition

/-- C1: whenever no composition is active, or the active composition's
flattened adapter names have empty intersection with the block's registered
adapter names, `adapters_forward` returns exactly
`LayerNorm(hidden_states + input_tensor)`, identical to the no-composition
pass-through. -/
theorem c1_pass_through {α : Type} [Inhabited α] (bk : AdapterBlock α) (h inp : Tensor α)
    (habs : ∀ setup, bk.active_setup = some setup →
      ∀ nm ∈ flatten setup, bk.adapter_modules nm = none) :
    adapters_forward bk h inp = .ok (lnAdd bk h inp)
    ∧ adapters_forward { bk with active_setup := none } h inp = .ok (lnAdd bk h inp) := by
  constructor
  · cases hs : bk.active_setup with
    | none => simp [adapters_forward, hs]
    | some setup =>
      have hfalse : (flatten setup).any (fun nm => (bk.adapter_modules nm).isSome) = false := by
        simp only [List.any_eq_false]
        intro nm hnm
        simp [habs setup hs nm hnm]
      simp [adapters_forward, hs, hfalse]
  · simp [adapters_forward, lnAdd]

/-- Witness for C1 at a concrete block: the composition `Stack(["q", "r"])` is
active but neither name is registered, and the output is the plain
residual + layer norm of the inputs. -/
theorem c1_pass_through_witness :
    adapters_forward { exBlock with active_setup := some (.stack [.leaf "q", .leaf "r"]) }
      [[5, 7]] [[2, 3]] = .ok [[8, 11]] :=
  (c1_pass_through { exBlock with active_setup := some (.stack [.leaf "q", .leaf "r"]) }
    [[5, 7]] [[2, 3]]
    (by
      intro setup hs nm hnm
      rw [show ({ exBlock with active_setup := some (.stack [.leaf "q", .leaf "r"])}
            : AdapterBlock Int).active_setup = some (.stack [.leaf "q", .leaf "r"]) from rfl] at hs
      cases hs
      simp only [flatten, flattenList, List.append_nil, List.mem_cons, List.mem_singleton,
        List.not_mem_nil, or_false, List.cons_append, List.nil_append] at hnm
      rcases hnm with h1 | h1 <;> subst h1 <;> rfl)).1

/-- C2 (code bug): on `Split(Stack(["a"]), "b")` with split index 1, the code
discards the nested `Stack` child's result (`_, up = self.adapter_stack(...)`),
so the prefix segment `[[8]]` passes through unprocessed, although running the
nested stack on the sliced prefix by hand produces `[[21]]`; the by-hand
concatenation `[[21, 41]]` therefore differs from the returned `[[8, 41]]`. -/
theorem c2_split_nested_stack_discarded :
    adapter_split exBlock [.stack [.leaf "a"], .leaf "b"] 1 [[5, 7]] [[2, 3]] 0 = .ok [[8, 41]]
    ∧ adapter_stack exBlock [.leaf "a"] [[8]] [[2]] 1 = .ok ([[21]], [[31]])
    ∧ concatSegs [[[21]], [[41]]] = ([[21, 41]] : Tensor Int)
    ∧ adapter_split exBlock [.stack [.leaf "a"], .leaf "b"] 1 [[5, 7]] [[2, 3]] 0
        ≠ .ok [[21, 41]] := by
  refine ⟨rfl, rfl, rfl, ?_⟩
  decide

/-- C3 counterexample: a `Fuse` nested directly inside a `Fuse` raises the
invalid-nesting `ValueError`, not the depth error, and a `Stack` nested
directly inside a top-level `Stack` is silently skipped: the result equals
that of the stack without the nested node, with no error at all. -/
theorem c3_counterexample :
    adapters_forward { exBlock with active_setup := some (.fuse [.fuse [.leaf "a"], .leaf "a"]) }
        [[5, 7]] [[2, 3]] = .error (.invalidNesting "Fuse" "Fuse")
    ∧ isTooDeepErr (adapters_forward
        { exBlock with active_setup := some (.fuse [.fuse [.leaf "a"], .leaf "a"]) }
        [[5, 7]] [[2, 3]]) = false
    ∧ adapters_forward { exBlock with active_setup := some (.stack [.stack [.leaf "a"], .leaf "a"]) }
        [[5, 7]] [[2, 3]] = .ok [[18, 21]]
    ∧ adapters_forward { exBlock with active_setup := some (.stack [.leaf "a"]) }
        [[5, 7]] [[2, 3]] = .ok [[18, 21]] :=
  ⟨rfl, rfl, rfl, rfl⟩

/-- C3 (amended): a composite node occurring as a child of a stack processed
at level ≥ 1 deterministically raises the depth error before the child runs;
a `Stack` child of a stack at level 0 is silently skipped. -/
theorem c3_depth_error_amended {α : Type} [Inhabited α] (bk : AdapterBlock α)
    (c : AdapterComposition) (rest : List AdapterComposition)
    (h inp : Tensor α) (lvl : Nat)
    (hcomp : c.isCompositionBlock = true) (hlvl : 1 ≤ lvl) :
    adapter_stack bk (c :: rest) h inp lvl = .error (.tooDeep c.className lvl)
    ∧ ∀ (ds : List AdapterComposition) (up : Option (Tensor α)),
        stackLoop bk 0 (.stack ds :: rest) h inp up = stackLoop bk 0 rest h inp up := by
  constructor
  · have hstep : stackStep bk lvl c h inp none = .error (.tooDeep c.className lvl) := by
      cases c with
      | leaf nm => simp [isCompositionBlock] at hcomp
      | stack ds => simp [stackStep, isCompositionBlock, hlvl]
      | fuse ds => simp [stackStep, isCompositionBlock, hlvl]
      | split ds k => simp [stackStep, isCompositionBlock, hlvl]
    simp only [adapter_stack, stackLoop, hstep]
    rfl
  · intro ds up
    rfl

/-- Witness for the amended C3: a `Stack` child inside a stack processed at
level 1 raises the depth error. -/
theorem c3_depth_error_amended_witness :
    adapter_stack exBlock [.stack [.leaf "a"]] [[5, 7]] [[2, 3]] 1
      = .error (.tooDeep "Stack" 1) :=
  (c3_depth_error_amended exBlock (.stack [.leaf "a"]) [] [[5, 7]] [[2, 3]] 1 rfl
    (Nat.le_refl 1)).1

/-- C5: with `residual_before_ln` and `original_ln_before` both set,
`get_adapter_preparams` captures the residual strictly before the layer norm
(it equals the incoming hidden states) and returns
`LayerNorm(hidden_states + input_tensor)` as the new hidden states; with
`residual_before_ln` unset the residual equals the hidden states after the
conditional layer norm. -/
theorem c5_preparams_residual {α : Type} [Inhabited α] (bk : AdapterBlock α)
    (cfg : AdapterConfig) (h inp : Tensor α) :
    (cfg.residual_before_ln = true → cfg.original_ln_before = true →
      (get_adapter_preparams bk cfg h inp).2.2 = h
      ∧ (get_adapter_preparams bk cfg h inp).1 = lnAdd bk h inp)
    ∧ (cfg.residual_before_ln = false →
      (get_adapter_preparams bk cfg h inp).2.2 = (get_adapter_preparams bk cfg h inp).1) := by
  constructor
  · intro h1 h2
    simp [get_adapter_preparams, h1, h2]
  · intro h1
    simp [get_adapter_preparams, h1]

/-- Witness for C5 at concrete configurations and tensors. -/
theorem c5_preparams_residual_witness :
    (get_adapter_preparams exBlock ⟨true, true, false⟩ [[5, 7]] [[2, 3]]).2.2 = [[5, 7]]
    ∧ (get_adapter_preparams exBlock ⟨false, true, false⟩ [[5, 7]] [[2, 3]]).2.2
        = (get_adapter_preparams exBlock ⟨false, true, false⟩ [[5, 7]] [[2, 3]]).1 :=
  ⟨((c5_preparams_residual exBlock ⟨true, true, false⟩ [[5, 7]] [[2, 3]]).1 rfl rfl).1,
   (c5_preparams_residual exBlock ⟨false, true, false⟩ [[5, 7]] [[2, 3]]).2 rfl⟩

/-- C8: the query returned by `get_adapter_preparams` is present exactly when
fusion configuration exists, is the pre-layer-norm hidden states if
`query_before_ln` and the post-conditional-layer-norm hidden states
otherwise, and does not depend on `residual_before_ln`. -/
theorem c8_query_capture {α : Type} [Inhabited α] (bk : AdapterBlock α)
    (cfg : AdapterConfig) (h inp : Tensor α) :
    (get_adapter_preparams bk cfg h inp).2.1
      = bk.adapter_fusion_cfg.map
          (fun fc => if fc.query_before_ln then h else (get_adapter_preparams bk cfg h inp).1)
    ∧ ∀ rb : Bool,
        (get_adapter_preparams bk { cfg with residual_before_ln := rb } h inp).2.1
          = (get_adapter_preparams bk cfg h inp).2.1 := by
  constructor
  · simp [get_adapter_preparams]
  · intro rb
    simp [get_adapter_preparams]

/-- Witness for C8: at the concrete block (which has fusion configuration with
`query_before_ln` set) the query is the captured pre-norm hidden states. -/
theorem c8_query_capture_witness :
    (get_adapter_preparams exBlock ⟨true, true, false⟩ [[5, 7]] [[2, 3]]).2.1
      = some [[5, 7]] := by
  have h1 := (c8_query_capture exBlock ⟨true, true, false⟩ [[5, 7]] [[2, 3]]).1
  simpa using h1

/-- C10: the interpreter can fail with the unbound-variable error instead of a
taxonomy error or a pass-through: a `Stack` with no processed child leaves
`up` unassigned (directly, or as a nested stack child of a `Fuse`), and the
`Fuse` loop appends an entry for an absent leaf child, duplicating the
previous child's tensor, or failing when the first child is absent. -/
theorem c10_unbound_up :
    adapter_fusion exBlock [.stack [.leaf "x"], .leaf "b"] [[5, 7]] [[2, 3]] 0
      = .error .unboundLocalUp
    ∧ adapter_stack exBlock [.leaf "x", .leaf "y"] [[5, 7]] [[2, 3]] 0
      = .error .unboundLocalUp
    ∧ fusionLoop exBlock [.leaf "a", .leaf "x"] [[8, 11]] [[2, 3]] [[8, 11]] 0 none []
      = .ok [[[28, 31]], [[28, 31]]]
    ∧ adapter_fusion exBlock [.leaf "x", .leaf "a"] [[5, 7]] [[2, 3]] 0
      = .error .unboundLocalUp
    ∧ exBlock.adapter_modules "x" = none :=
  ⟨rfl, rfl, rfl, rfl, rfl⟩

/-- C6: when a composition is active, intersects the registry, and its
interpretation returns, the block applies
`LayerNorm(hidden_states + input_tensor)` exactly when the configuration of
the composition's last referenced adapter has `original_ln_after` set — the
lookup never consults this block's registry. -/
theorem c6_post_ln_last_config {α : Type} [Inhabited α] (bk : AdapterBlock α)
    (setup : AdapterComposition) (h inp out : Tensor α)
    (hset : bk.active_setup = some setup)
    (hint : (flatten setup).any (fun nm => (bk.adapter_modules nm).isSome) = true)
    (hrun : dispatchSetup bk setup h inp = .ok out) :
    adapters_forward bk h inp
      = .ok (if (bk.adapters_get (lastName setup)).original_ln_after
             then lnAdd bk out inp else out) := by
  simp only [adapters_forward, hset, hint, if_true, hrun]
  rfl

/-- Witness for C6: the active stack ends in adapter `"z"`, which is absent
from the block's registry but has `original_ln_after` set, so the extra
layer norm is applied after the interpreted output `[[18, 21]]`. -/
theorem c6_post_ln_last_config_witness :
    adapters_forward { exBlock with active_setup := some (.stack [.leaf "a", .leaf "z"]) }
        [[5, 7]] [[2, 3]] = .ok [[21, 25]]
    ∧ ({ exBlock with active_setup := some (.stack [.leaf "a", .leaf "z"]) }
        : AdapterBlock Int).adapter_modules "z" = none :=
  ⟨c6_post_ln_last_config { exBlock with active_setup := some (.stack [.leaf "a", .leaf "z"]) }
      (.stack [.leaf "a", .leaf "z"]) [[5, 7]] [[2, 3]] [[18, 21]] rfl rfl rfl, rfl⟩

/-- A leaf child of a `Fuse` node never consults the configuration lookup:
its iteration only reads the adapter registry. -/
theorem fusionStep_get_irrel {α : Type} [Inhabited α] (bk : AdapterBlock α)
    (g g2 : String → AdapterConfig) (c : AdapterComposition) (hleaf : c.isLeaf = true)
    (h1 inp residual : Tensor α) (lvl : Nat) (up : Option (Tensor α)) :
    fusionStep { bk with adapters_get := g } c h1 inp residual lvl up
      = fusionStep { bk with adapters_get := g2 } c h1 inp residual lvl up := by
  cases c with
  | leaf nm => rfl
  | stack ds => simp [isLeaf] at hleaf
  | fuse ds => simp [isLeaf] at hleaf
  | split ds k => simp [isLeaf] at hleaf

/-- The `Fuse` loop over leaf-only children does not depend on the
configuration lookup. -/
theorem fusionLoop_get_irrel {α : Type} [Inhabited α] (bk : AdapterBlock α)
    (g g2 : String → AdapterConfig) :
    ∀ (cs : List AdapterComposition), (∀ c ∈ cs, c.isLeaf = true) →
      ∀ (h1 inp residual : Tensor α) (lvl : Nat) (up : Option (Tensor α))
        (acc : List (Tensor α)),
      fusionLoop { bk with adapters_get := g } cs h1 inp residual lvl up acc
        = fusionLoop { bk with adapters_get := g2 } cs h1 inp residual lvl up acc := by
  intro cs
  induction cs with
  | nil => intro _ h1 inp residual lvl up acc; rfl
  | cons c rest ih =>
    intro hcs h1 inp residual lvl up acc
    have hc : c.isLeaf = true := hcs c (List.mem_cons_self c rest)
    have hrest : ∀ x ∈ rest, x.isLeaf = true := fun x hx => hcs x (List.mem_cons_of_mem c hx)
    simp only [fusionLoop]
    rw [fusionStep_get_irrel bk g g2 c hc]
    cases hstep : fusionStep { bk with adapters_get := g2 } c h1 inp residual lvl up with
    | error e => rfl
    | ok up2 =>
      cases up2 with
      | some u => simp [ih hrest]
      | none => rfl

/-- A leaf child of a `Split` node never consults the configuration lookup. -/
theorem splitStep_get_irrel {α : Type} [Inhabited α] (bk : AdapterBlock α)
    (g g2 : String → AdapterConfig) (c : AdapterComposition) (hleaf : c.isLeaf = true)
    (sg : Tensor α × Tensor α × Tensor α) (lvl : Nat) :
    splitStep { bk with adapters_get := g } c sg lvl
      = splitStep { bk with adapters_get := g2 } c sg lvl := by
  cases c with
  | leaf nm => rfl
  | stack ds => simp [isLeaf] at hleaf
  | fuse ds => simp [isLeaf] at hleaf
  | split ds k => simp [isLeaf] at hleaf

/-- The `Split` loop over leaf-only children does not depend on the
configuration lookup. -/
theorem splitLoop_get_irrel {α : Type} [Inhabited α] (bk : AdapterBlock α)
    (g g2 : String → AdapterConfig) :
    ∀ (cs : List AdapterComposition), (∀ c ∈ cs, c.isLeaf = true) →
      ∀ (segs : List (Tensor α × Tensor α × Tensor α)) (lvl : Nat),
      splitLoop { bk with adapters_get := g } cs segs lvl
        = splitLoop { bk with adapters_get := g2 } cs segs lvl := by
  intro cs
  induction cs with
  | nil => intro _ segs lvl; rfl
  | cons c rest ih =>
    intro hcs segs lvl
    have hc : c.isLeaf = true := hcs c (List.mem_cons_self c rest)
    have hrest : ∀ x ∈ rest, x.isLeaf = true := fun x hx => hcs x (List.mem_cons_of_mem c hx)
    cases segs with
    | nil => rfl
    | cons sg segs2 =>
      simp only [splitLoop]
      rw [splitStep_get_irrel bk g g2 c hc]
      cases hstep : splitStep { bk with adapters_get := g2 } c sg lvl with
      | error e => rfl
      | ok t => simp [ih hrest]

/-- C4: the preparameters of a `Fuse` node are resolved from the last
child's adapter config and those of a `Split` node from the first child's:
over leaf children, two configuration lookups agreeing on that single name
make `adapter_fusion` (respectively `adapter_split`) agree entirely. -/
theorem c4_fuse_last_split_first_config {α : Type} [Inhabited α] (bk : AdapterBlock α)
    (g g2 : String → AdapterConfig) (cs ds : List AdapterComposition) (k lvl : Nat)
    (h inp : Tensor α)
    (hcs : ∀ c ∈ cs, c.isLeaf = true) (hds : ∀ c ∈ ds, c.isLeaf = true)
    (hlast : g (lastNameList cs) = g2 (lastNameList cs))
    (hfirst : g (firstNameList ds) = g2 (firstNameList ds)) :
    adapter_fusion { bk with adapters_get := g } cs h inp lvl
      = adapter_fusion { bk with adapters_get := g2 } cs h inp lvl
    ∧ adapter_split { bk with adapters_get := g } ds k h inp lvl
      = adapter_split { bk with adapters_get := g2 } ds k h inp lvl := by
  have hpre : fusionPre { bk with adapters_get := g } cs h inp
      = fusionPre { bk with adapters_get := g2 } cs h inp := by
    show get_adapter_preparams { bk with adapters_get := g } (g (lastNameList cs)) h inp
      = get_adapter_preparams { bk with adapters_get := g2 } (g2 (lastNameList cs)) h inp
    rw [hlast]
    rfl
  have hpre2 : splitPre { bk with adapters_get := g } ds h inp
      = splitPre { bk with adapters_get := g2 } ds h inp := by
    show get_adapter_preparams { bk with adapters_get := g } (g (firstNameList ds)) h inp
      = get_adapter_preparams { bk with adapters_get := g2 } (g2 (firstNameList ds)) h inp
    rw [hfirst]
    rfl
  constructor
  · show (fusionLoop { bk with adapters_get := g } cs
        (fusionPre { bk with adapters_get := g } cs h inp).1 inp
        (fusionPre { bk with adapters_get := g } cs h inp).2.2 lvl none []).bind
          (fusionPost { bk with adapters_get := g } cs
            (fusionPre { bk with adapters_get := g } cs h inp).2.1
            (fusionPre { bk with adapters_get := g } cs h inp).2.2
            (fusionPre { bk with adapters_get := g } cs h inp).1) = _
    rw [hpre, fusionLoop_get_irrel bk g g2 cs hcs]
    rfl
  · show (splitLoop { bk with adapters_get := g } ds
        (mkSegs k (splitPre { bk with adapters_get := g } ds h inp).1 inp
          (splitPre { bk with adapters_get := g } ds h inp).2.2) lvl).map concatSegs = _
    rw [hpre2, splitLoop_get_irrel bk g g2 ds hds]
    rfl

/-- Witness for C4: two lookup tables differing only at `"b"` (which is
neither the last name of the fuse group nor the first name of the split)
produce identical fusion and split results. -/
theorem c4_fuse_last_split_first_config_witness :
    adapter_fusion { exBlock with adapters_get := fun _ => ⟨false, true, false⟩ }
        [.leaf "b", .leaf "a"] [[5, 7]] [[2, 3]] 0
      = adapter_fusion { exBlock with adapters_get := fun nm =>
          if nm = "b" then ⟨true, false, true⟩ else ⟨false, true, false⟩ }
        [.leaf "b", .leaf "a"] [[5, 7]] [[2, 3]] 0
    ∧ adapter_split { exBlock with adapters_get := fun _ => ⟨false, true, false⟩ }
        [.leaf "a", .leaf "b"] 1 [[5, 7]] [[2, 3]] 0
      = adapter_split { exBlock with adapters_get := fun nm =>
          if nm = "b" then ⟨true, false, true⟩ else ⟨false, true, false⟩ }
        [.leaf "a", .leaf "b"] 1 [[5, 7]] [[2, 3]] 0 :=
  c4_fuse_last_split_first_config exBlock
    (fun _ => ⟨false, true, false⟩)
    (fun nm => if nm = "b" then ⟨true, false, true⟩ else ⟨false, true, false⟩)
    [.leaf "b", .leaf "a"] [.leaf "a", .leaf "b"] 1 0 [[5, 7]] [[2, 3]]
    (by
      intro c hc
      simp only [List.mem_cons, List.not_mem_nil, or_false] at hc
      rcases hc with rfl | rfl <;> rfl)
    (by
      intro c hc
      simp only [List.mem_cons, List.not_mem_nil, or_false] at hc
      rcases hc with rfl | rfl <;> rfl)
    rfl rfl

/-- Reduction of `Except.bind` on a success value. -/
theorem except_bind_ok {e b c : Type} (x : b) (g : b → Except e c) :
    (Except.ok x).bind g = g x := rfl

/-- The `Fuse` loop appends exactly one `up_list` entry per child whenever it
completes without an exception. -/
theorem fusionLoop_ok_length {α : Type} [Inhabited α] (bk : AdapterBlock α) :
    ∀ (cs : List AdapterComposition) (h1 inp residual : Tensor α) (lvl : Nat)
      (up : Option (Tensor α)) (acc ups : List (Tensor α)),
      fusionLoop bk cs h1 inp residual lvl up acc = .ok ups →
      ups.length = acc.length + cs.length := by
  intro cs
  induction cs with
  | nil =>
    intro h1 inp residual lvl up acc ups hrun
    simp only [fusionLoop] at hrun
    cases hrun
    simp
  | cons c rest ih =>
    intro h1 inp residual lvl up acc ups hrun
    simp only [fusionLoop] at hrun
    cases hstep : fusionStep bk c h1 inp residual lvl up with
    | error e => rw [hstep] at hrun; cases hrun
    | ok up2 =>
      rw [hstep] at hrun
      cases up2 with
      | none => cases hrun
      | some u =>
        have hlen := ih h1 inp residual lvl (some u) (acc ++ [u]) ups hrun
        simp only [List.length_append, List.length_cons, List.length_nil] at hlen ⊢
        omega

/-- When every `Fuse` child is a leaf present in the registry, the collected
`up_list` is exactly the children's up-projections in children order. -/
theorem fusionLoop_all_present {α : Type} [Inhabited α] (bk : AdapterBlock α) :
    ∀ (cs : List AdapterComposition) (h1 inp residual : Tensor α) (lvl : Nat)
      (up : Option (Tensor α)) (acc : List (Tensor α)),
      (∀ c ∈ cs, ∃ nm f, c = .leaf nm ∧ bk.adapter_modules nm = some f) →
      fusionLoop bk cs h1 inp residual lvl up acc
        = .ok (acc ++ cs.map (leafUp bk h1 residual)) := by
  intro cs
  induction cs with
  | nil =>
    intro h1 inp residual lvl up acc _
    simp [fusionLoop]
  | cons c rest ih =>
    intro h1 inp residual lvl up acc hall
    obtain ⟨nm, f, rfl, hmod⟩ := hall c (List.mem_cons_self c rest)
    have hrest : ∀ x ∈ rest, ∃ nm2 f2, x = .leaf nm2 ∧ bk.adapter_modules nm2 = some f2 :=
      fun x hx => hall x (List.mem_cons_of_mem _ hx)
    simp only [fusionLoop, fusionStep, hmod, except_bind_ok]
    rw [ih h1 inp residual lvl (some ((runAdapter f h1 residual).2))
      (acc ++ [(runAdapter f h1 residual).2]) hrest]
    simp only [List.map_cons, leafUp, hmod, List.append_assoc, List.cons_append,
      List.nil_append]

/-- Shape of the stacked, permuted up-projection tensor: for `ups` nonempty
and uniformly of shape `B × S`, the result has batch length `B`, sequence
length `S` per batch row, and at every position the adapter-axis list of all
entries of `ups`, in order. -/
theorem stackPermute_shape {α : Type} [Inhabited α] (ups : List (Tensor α)) (B S : Nat)
    (hne : ups ≠ [])
    (hdim : ∀ u ∈ ups, u.length = B ∧ ∀ row ∈ u, row.length = S) :
    (stackPermute ups).length = B
    ∧ (∀ bs ∈ stackPermute ups, bs.length = S)
    ∧ ∀ b s, b < B → s < S →
        ((stackPermute ups).getD b []).getD s []
          = ups.map (fun u => (u.getD b []).getD s default) := by
  match ups, hne with
  | u0 :: rest, _ =>
    have h0 := hdim u0 (List.mem_cons_self u0 rest)
    have hrow : ∀ b, b < B → (u0.getD b []).length = S := by
      intro b hb
      rw [List.getD_eq_getElem u0 [] (by rw [h0.1]; exact hb)]
      exact h0.2 _ (List.getElem_mem _)
    refine ⟨?_, ?_, ?_⟩
    · simp [stackPermute, h0.1]
    · intro bs hbs
      simp only [stackPermute, List.mem_map, List.mem_range] at hbs
      obtain ⟨b, hb, rfl⟩ := hbs
      rw [h0.1] at hb
      rw [List.length_map, List.length_range]
      exact hrow b hb
    · intro b s hb hs
      have hb0 : b < u0.length := by rw [h0.1]; exact hb
      have hs0 : s < (u0.getD b []).length := by rw [hrow b hb]; exact hs
      rw [List.getD_eq_getElem?_getD] at hs0
      simp only [stackPermute, List.getD_eq_getElem?_getD, List.getElem?_map,
        List.getElem?_range hb0, List.getElem?_range hs0, Option.map_some',
        Option.getD_some]

/-- C7 (amended): when the `Fuse` loop over `n` children completes with
`up_list = ups` (nonempty, uniformly shaped `B × S`), the tensor handed to
the fusion module is `stackPermute ups`, whose adapter axis has size exactly
`n = cs.length` and sits between the batch/sequence axes and the feature
axis; when additionally every child is a leaf present in the registry, entry
`i` of that axis is child `i`'s up-projection, in children order.  (An absent
leaf child instead duplicates the previous entry, see the counterexample.) -/
theorem c7_fuse_stacked_amended {α : Type} [Inhabited α] (bk : AdapterBlock α)
    (cs : List AdapterComposition) (h inp : Tensor α) (lvl : Nat)
    (ups : List (Tensor α)) (B S : Nat)
    (hrun : fusionLoop bk cs (fusionPre bk cs h inp).1 inp
        (fusionPre bk cs h inp).2.2 lvl none [] = .ok ups)
    (hne : ups ≠ [])
    (hdim : ∀ u ∈ ups, u.length = B ∧ ∀ row ∈ u, row.length = S) :
    (∀ fl, bk.adapter_fusion_layer (fuseKey cs) = some fl →
        adapter_fusion bk cs h inp lvl
          = .ok (fl (fusionPre bk cs h inp).2.1 (stackPermute ups)
              (fusionPre bk cs h inp).2.2))
    ∧ ups.length = cs.length
    ∧ (stackPermute ups).length = B
    ∧ (∀ bs ∈ stackPermute ups, bs.length = S)
    ∧ (∀ b s, b < B → s < S →
        ((stackPermute ups).getD b []).getD s []
          = ups.map (fun u => (u.getD b []).getD s default))
    ∧ ((∀ c ∈ cs, ∃ nm f, c = .leaf nm ∧ bk.adapter_modules nm = some f) →
        ups = cs.map (leafUp bk (fusionPre bk cs h inp).1 (fusionPre bk cs h inp).2.2)) := by
  obtain ⟨l1, l2, l3⟩ := stackPermute_shape ups B S hne hdim
  refine ⟨?_, ?_, l1, l2, l3, ?_⟩
  · intro fl hfl
    show (fusionLoop bk cs (fusionPre bk cs h inp).1 inp
        (fusionPre bk cs h inp).2.2 lvl none []).bind
          (fusionPost bk cs (fusionPre bk cs h inp).2.1
            (fusionPre bk cs h inp).2.2 (fusionPre bk cs h inp).1) = _
    rw [hrun, except_bind_ok]
    simp [fusionPost, hfl, List.length_pos.mpr hne]
  · have hlen := fusionLoop_ok_length bk cs (fusionPre bk cs h inp).1 inp
      (fusionPre bk cs h inp).2.2 lvl none [] ups hrun
    simpa using hlen
  · intro hall
    have h2 := fusionLoop_all_present bk cs (fusionPre bk cs h inp).1 inp
      (fusionPre bk cs h inp).2.2 lvl none [] hall
    rw [h2] at hrun
    cases hrun
    simp

/-- Witness for the amended C7: a fuse over the two present adapters `"a"`
and `"b"` collects exactly their two up-projections in order. -/
theorem c7_fuse_stacked_amended_witness :
    ([[[28, 31]], [[48, 51]]] : List (Tensor Int)).length = 2
    ∧ ([[[28, 31]], [[48, 51]]] : List (Tensor Int))
        = [AdapterComposition.leaf "a", AdapterComposition.leaf "b"].map
            (leafUp exBlock [[8, 11]] [[8, 11]]) := by
  have hx := c7_fuse_stacked_amended exBlock [.leaf "a", .leaf "b"] [[5, 7]] [[2, 3]] 0
    [[[28, 31]], [[48, 51]]] 1 2 rfl (by decide) (by decide)
  refine ⟨hx.2.1, ?_⟩
  have h2 := hx.2.2.2.2.2 (by
    intro c hc
    simp only [List.mem_cons, List.not_mem_nil, or_false] at hc
    rcases hc with rfl | rfl
    · exact ⟨"a", fun x _ => (x + 10, x + 20), rfl, rfl⟩
    · exact ⟨"b", fun x r => (x + 30, r + 40), rfl, rfl⟩)
  exact h2

/-- C7 counterexample: in `Fuse(["a", "x"])` with `"x"` absent from the
registry, the loop still appends an entry for `"x"`: the collected list is
`[up_a, up_a]` — slot 1 does not hold an up-projection of child `"x"` (which
has no module) but a duplicate of child 0's, and the fusion module is applied
to that duplicated stack. -/
theorem c7_counterexample :
    fusionLoop exBlock [.leaf "a", .leaf "x"]
        (fusionPre exBlock [.leaf "a", .leaf "x"] [[5, 7]] [[2, 3]]).1 [[2, 3]]
        (fusionPre exBlock [.leaf "a", .leaf "x"] [[5, 7]] [[2, 3]]).2.2 0 none []
      = .ok [[[28, 31]], [[28, 31]]]
    ∧ leafUp exBlock [[8, 11]] [[8, 11]] (.leaf "a") = [[28, 31]]
    ∧ exBlock.adapter_modules "x" = none
    ∧ adapter_fusion exBlock [.leaf "a", .leaf "x"] [[5, 7]] [[2, 3]] 0 = .ok [[64, 73]] :=
  ⟨rfl, rfl, rfl, rfl⟩

/-- Folding the per-module accumulation over one fusion-module list equals
the starting value plus the scaled Frobenius terms of the present value
weights. -/
theorem fusionModuleFold_eq {n : Nat} (ms : List BertFusionModule) (a : ℚ) :
    ms.foldl (fun acc fm =>
        match fm.value with
        | some w => acc + (0.01 : ℚ) * frobSq n w
        | none => acc) a
      = a + ((ms.filterMap (fun fm => fm.value)).map
          (fun w => (0.01 : ℚ) * frobSq n w)).sum := by
  induction ms generalizing a with
  | nil => simp
  | cons fm rest ih =>
    cases hv : fm.value with
    | none => simp [List.foldl_cons, hv, ih]
    | some w => simp [List.foldl_cons, hv, ih, add_assoc]

/-- `get_fusion_regularization_loss` equals the sum, over all fusion modules
with a value weight and in iteration order, of the scaled Frobenius terms. -/
theorem get_fusion_regularization_loss_eq_sum (n : Nat) (layers : List EncoderLayer) :
    get_fusion_regularization_loss n layers
      = ((valueWeights layers).map (fun w => (0.01 : ℚ) * frobSq n w)).sum := by
  suffices hgen : ∀ (a : ℚ), layers.foldl (fun acc v =>
      let acc2 := v.output_fusions.foldl (fun x fm =>
        match fm.value with
        | some w => x + (0.01 : ℚ) * frobSq n w
        | none => x) acc
      v.attention_fusions.foldl (fun x fm =>
        match fm.value with
        | some w => x + (0.01 : ℚ) * frobSq n w
        | none => x) acc2) a
      = a + ((valueWeights layers).map (fun w => (0.01 : ℚ) * frobSq n w)).sum by
    have h0 := hgen 0
    simpa [get_fusion_regularization_loss] using h0
  induction layers with
  | nil => intro a; simp [valueWeights]
  | cons v rest ih =>
    intro a
    simp only [List.foldl_cons]
    rw [fusionModuleFold_eq, fusionModuleFold_eq, ih]
    simp [valueWeights, List.filterMap_append, add_assoc]

/-- Folding addition over a list of zeros leaves the start value unchanged. -/
theorem foldl_add_zeros (l : List ℚ) : ∀ (a : ℚ), (∀ x ∈ l, x = 0) → l.foldl (· + ·) a = a := by
  induction l with
  | nil => intro a _; rfl
  | cons x xs ih =>
    intro a h
    rw [List.foldl_cons, h x (List.mem_cons_self x xs), add_zero]
    exact ih a (fun y hy => h y (List.mem_cons_of_mem _ hy))

/-- The Frobenius distance of the identity target to itself vanishes. -/
theorem frobSq_target (n : Nat) : frobSq n targetMatrix = 0 := by
  simp only [frobSq]
  apply foldl_add_zeros
  intro x hx
  simp only [List.mem_map, List.mem_range] at hx
  obtain ⟨i, _, rfl⟩ := hx
  apply foldl_add_zeros
  intro y hy
  simp only [List.mem_map, List.mem_range] at hy
  obtain ⟨j, _, rfl⟩ := hy
  simp

/-- C9: the fusion regularization aggregate is exactly `0` for a model with
no fusion modules, exactly `0` when every value-projection weight equals the
identity target, and in general is the sum over all fusion modules (with a
value weight, in iteration order) of `0.01` times the squared Frobenius
distance between the value weight and the identity. -/
theorem c9_fusion_regularization (n : Nat) (layers : List EncoderLayer) :
    get_fusion_regularization_loss n [] = 0
    ∧ ((∀ v ∈ layers, v.output_fusions = [] ∧ v.attention_fusions = []) →
        get_fusion_regularization_loss n layers = 0)
    ∧ ((∀ w ∈ valueWeights layers, ∀ i j, w i j = targetMatrix i j) →
        get_fusion_regularization_loss n layers = 0)
    ∧ get_fusion_regularization_loss n layers
        = ((valueWeights layers).map (fun w => (0.01 : ℚ) * frobSq n w)).sum := by
  refine ⟨rfl, ?_, ?_, get_fusion_regularization_loss_eq_sum n layers⟩
  · intro hempty
    rw [get_fusion_regularization_loss_eq_sum n layers]
    have hw : valueWeights layers = [] := by
      induction layers with
      | nil => rfl
      | cons v rest ih =>
        have hv := hempty v (List.mem_cons_self v rest)
        have hrest := ih (fun x hx => hempty x (List.mem_cons_of_mem v hx))
        simp [valueWeights, hv.1, hv.2] at hrest ⊢
        exact hrest
    simp [hw]
  · intro hid
    rw [get_fusion_regularization_loss_eq_sum n layers]
    apply List.sum_eq_zero
    intro x hx
    simp only [List.mem_map] at hx
    obtain ⟨w, hw, rfl⟩ := hx
    have hweq : frobSq n w = frobSq n targetMatrix := by
      simp only [frobSq]
      congr 1
      apply List.map_congr_left
      intro i _
      congr 1
      apply List.map_congr_left
      intro j _
      rw [hid w hw i j]
    rw [hweq, frobSq_target, mul_zero]

/-- Witness for C9: one encoder layer whose single output-side fusion module
has the identity value weight (plus one module without a value attribute)
contributes zero regularization loss. -/
theorem c9_fusion_regularization_witness :
    get_fusion_regularization_loss 2 [⟨[⟨some targetMatrix⟩], [⟨none⟩]⟩] = 0 :=
  (c9_fusion_regularization 2 [⟨[⟨some targetMatrix⟩], [⟨none⟩]⟩]).2.2.1 (by
    intro w hw i j
    simp [valueWeights] at hw
    rw [hw])
